import Mathlib

/-!
# Verification of the aff3ct task-execution engine

A shallow embedding of the sampled sources of the aff3ct repository,
centred on the wave-batching algorithm of `Decoder_HIHO_i`
(`src/Module/Decoder/Decoder_HIHO.hpp`) and on the `Task`
statistics/clone contracts (`include/Module/Task.hpp`).

Buffers (raw C++ pointers) are embedded as total functions `Nat → B`;
a `std::copy(src, src + len, dst + off)` becomes `writeRange dst off len src`.
Fallible C++ code (functions that may `throw`) returns `Except DecoderError`.
-/

namespace Aff3ct

/-- Errors thrown by the decoder layer: `tools::length_error` (raised by the
vector overloads on a size mismatch) and `tools::unimplemented_error`
(raised by the unoverridden `_decode_hiho` hook). -/
inductive DecoderError where
  | length_error
  | unimplemented_error
deriving DecidableEq, Repr

/-- `writeRange dst off len src` is the buffer obtained from `dst` by
`std::copy(src, src + len, dst + off)`: indices `off ≤ i < off + len` read
`src (i - off)`, all others keep the old content of `dst`. -/
def writeRange {B : Type} (dst : Nat → B) (off len : Nat) (src : Nat → B) : Nat → B :=
  fun i => if off ≤ i ∧ i < off + len then src (i - off) else dst i

/-- One record per `_decode_hiho` kernel invocation performed by the wave
scheduler: a `full` wave runs directly on the true input/output memory at the
given element offsets, a `padded` wave runs through the scratch buffers. -/
inductive WaveCall where
  | full (inOff outOff frameId : Nat)
  | padded (frameId : Nat)
deriving DecidableEq, Repr

/-- A `_decode_hiho`-style kernel: receives the frame id and the input buffer
(viewed from the pointer handed to it) and either throws or returns the output
buffer it produced (of which the first `K * simd_inter_frame_level` elements
are meaningful). -/
def Kernel (B : Type) : Type :=
  Nat → (Nat → B) → Except DecoderError (Nat → B)

/-- A kernel that never throws, built from a total function. -/
def pureKernel {B : Type} (kf : Nat → (Nat → B) → Nat → B) : Kernel B :=
  fun frame_id v => .ok (kf frame_id v)

/-- The base-class hook `_decode_hiho` (Decoder_HIHO.hpp lines 201-204), used
when a concrete subclass does not override it: it unconditionally throws
`tools::unimplemented_error`. -/
def default_decode_hiho (B : Type) : Kernel B :=
  fun _ _ => .error DecoderError.unimplemented_error

/-- The state of a `Decoder_HIHO_i<B>` object: the constructor parameters
`K`, `N`, `n_frames`, `simd_inter_frame_level` and the two private scratch
vectors `Y_N` and `V_KN` (contents as a buffer, allocated size as a `Nat`). -/
structure Decoder_HIHO (B : Type) where
  K : Nat
  N : Nat
  n_frames : Nat
  simd_inter_frame_level : Nat
  Y_N : Nat → B
  V_KN : Nat → B
  Y_N_size : Nat
  V_KN_size : Nat

namespace Decoder_HIHO

variable {B : Type}

/-- Modelled from the spec: the `Decoder` base class (whose source file is not
among the sampled sources; only `Decoder_HIHO.hpp` is) stores the remainder of
the frame count by the SIMD width; per the spec, `remainder = F mod W`. -/
def n_inter_frame_rest (d : Decoder_HIHO B) : Nat :=
  d.n_frames % d.simd_inter_frame_level

/-- Modelled from the spec: the `Decoder` base class (not among the sampled
sources) stores the number of SIMD waves.  Per the spec there are
`full_waves = F / W` direct waves plus one padded wave exactly when
`F mod W > 0`, and `decode_hiho` runs `n_dec_waves - 1` loop iterations before
the final (full or padded) wave, so `n_dec_waves = ⌈F / W⌉`. -/
def n_dec_waves (d : Decoder_HIHO B) : Nat :=
  (d.n_frames + d.simd_inter_frame_level - 1) / d.simd_inter_frame_level

/-- The constructor `Decoder_HIHO_i(K, N, n_frames, simd_inter_frame_level)`
(Decoder_HIHO.hpp lines 52-57): the scratch vectors `Y_N` and `V_KN` are both
allocated with `simd_inter_frame_level * N` elements when
`n_inter_frame_rest` is nonzero and with `0` elements otherwise
(`std::vector<B>(n)` value-initialises, embedded by the element `b0`). -/
def mkDecoder (K N n_frames simd_inter_frame_level : Nat) (b0 : B) : Decoder_HIHO B :=
  let rest := n_frames % simd_inter_frame_level
  { K := K
    N := N
    n_frames := n_frames
    simd_inter_frame_level := simd_inter_frame_level
    Y_N := fun _ => b0
    V_KN := fun _ => b0
    Y_N_size := if rest ≠ 0 then simd_inter_frame_level * N else 0
    V_KN_size := if rest ≠ 0 then simd_inter_frame_level * N else 0 }

/-- The mutable state threaded through one `decode_hiho(const B*, B*)` call:
the output memory `V`, the scratch buffers (contents and allocated sizes) and
the trace of kernel invocations made so far. -/
structure WaveState (B : Type) where
  V : Nat → B
  scratchY : Nat → B
  scratchV : Nat → B
  scratchY_size : Nat
  scratchV_size : Nat
  calls : List WaveCall

/-- One full wave of `decode_hiho` (Decoder_HIHO.hpp lines 126-128 and
131-133): the kernel is invoked directly on the true memory at input offset
`w * N * simd_inter_frame_level`, output offset
`w * K * simd_inter_frame_level`, frame id `w * simd_inter_frame_level`;
it writes `K * simd_inter_frame_level` output elements. -/
def fullWaveStep (d : Decoder_HIHO B) (ker : Kernel B) (Y : Nat → B) (w : Nat)
    (s : WaveState B) : Except DecoderError (WaveState B) :=
  match ker (w * d.simd_inter_frame_level)
        (fun j => Y (w * d.N * d.simd_inter_frame_level + j)) with
  | .error e => .error e
  | .ok out => .ok { s with
      V := writeRange s.V (w * d.K * d.simd_inter_frame_level)
             (d.K * d.simd_inter_frame_level) out
      calls := s.calls ++ [WaveCall.full (w * d.N * d.simd_inter_frame_level)
                             (w * d.K * d.simd_inter_frame_level)
                             (w * d.simd_inter_frame_level)] }

/-- The loop `for (w = 0; w < n_dec_waves - 1; w++)` of `decode_hiho`
(Decoder_HIHO.hpp lines 125-128): `wavesUpTo d ker Y m s` runs the full waves
`0, 1, …, m - 1` in order. -/
def wavesUpTo (d : Decoder_HIHO B) (ker : Kernel B) (Y : Nat → B) :
    Nat → WaveState B → Except DecoderError (WaveState B)
  | 0, s => .ok s
  | m + 1, s =>
    match d.wavesUpTo ker Y m s with
    | .error e => .error e
    | .ok s1 => d.fullWaveStep ker Y m s1

/-- The padded final wave of `decode_hiho` (Decoder_HIHO.hpp lines 134-147),
with `w = n_dec_waves - 1`: copy the `n_inter_frame_rest * N` leftover input
elements from offset `w * simd_inter_frame_level * N` into the scratch buffer
`Y_N`, invoke the kernel on the scratch buffers (it writes its
`K * simd_inter_frame_level` output elements into `V_KN`), then copy the first
`n_inter_frame_rest * K` elements of `V_KN` back to the true output at offset
`w * simd_inter_frame_level * K`. -/
def paddedWaveStep (d : Decoder_HIHO B) (ker : Kernel B) (Y : Nat → B)
    (s : WaveState B) : Except DecoderError (WaveState B) :=
  let w := d.n_dec_waves - 1
  let waves_off1 := w * d.simd_inter_frame_level * d.N
  let sy := writeRange s.scratchY 0 (d.n_inter_frame_rest * d.N)
              (fun j => Y (waves_off1 + j))
  match ker (w * d.simd_inter_frame_level) sy with
  | .error e => .error e
  | .ok out =>
    let sv := writeRange s.scratchV 0 (d.K * d.simd_inter_frame_level) out
    let waves_off2 := w * d.simd_inter_frame_level * d.K
    .ok { s with
      V := writeRange s.V waves_off2 (d.n_inter_frame_rest * d.K) sv
      scratchY := sy
      scratchV := sv
      calls := s.calls ++ [WaveCall.padded (w * d.simd_inter_frame_level)] }

/-- The pointer-level `decode_hiho(const B *Y_N, B *V_K)`
(Decoder_HIHO.hpp lines 122-148): run the `n_dec_waves - 1` leading full
waves, then either one more full wave (when `n_inter_frame_rest == 0`) or the
padded wave through the scratch buffers. -/
def decode_hiho (d : Decoder_HIHO B) (ker : Kernel B) (Y V : Nat → B) :
    Except DecoderError (WaveState B) :=
  let s0 : WaveState B :=
    { V := V, scratchY := d.Y_N, scratchV := d.V_KN,
      scratchY_size := d.Y_N_size, scratchV_size := d.V_KN_size, calls := [] }
  match d.wavesUpTo ker Y (d.n_dec_waves - 1) s0 with
  | .error e => .error e
  | .ok s1 =>
    if d.n_inter_frame_rest = 0 then d.fullWaveStep ker Y (d.n_dec_waves - 1) s1
    else d.paddedWaveStep ker Y s1

/-- The vector overload `decode_hiho(const std::vector<B>&, std::vector<B>&)`
(Decoder_HIHO.hpp lines 100-120): throw `tools::length_error` when
`Y_N.size() ≠ N * n_frames` or `V_K.size() ≠ K * n_frames`, otherwise invoke
the pointer-level wave algorithm on the vectors' data. -/
def decode_hiho_vec (d : Decoder_HIHO B) (b0 : B) (ker : Kernel B)
    (Yv Vv : List B) : Except DecoderError (WaveState B) :=
  if d.N * d.n_frames ≠ Yv.length then .error DecoderError.length_error
  else if d.K * d.n_frames ≠ Vv.length then .error DecoderError.length_error
  else d.decode_hiho ker (fun i => Yv.getD i b0) (fun i => Vv.getD i b0)

/-- One full wave of `decode_hiho_coded` (Decoder_HIHO.hpp lines 176-178 and
181-183): as `fullWaveStep` but both strides are `N`. -/
def fullWaveStepCoded (d : Decoder_HIHO B) (ker : Kernel B) (Y : Nat → B)
    (w : Nat) (s : WaveState B) : Except DecoderError (WaveState B) :=
  match ker (w * d.simd_inter_frame_level)
        (fun j => Y (w * d.N * d.simd_inter_frame_level + j)) with
  | .error e => .error e
  | .ok out => .ok { s with
      V := writeRange s.V (w * d.N * d.simd_inter_frame_level)
             (d.N * d.simd_inter_frame_level) out
      calls := s.calls ++ [WaveCall.full (w * d.N * d.simd_inter_frame_level)
                             (w * d.N * d.simd_inter_frame_level)
                             (w * d.simd_inter_frame_level)] }

/-- The loop of full waves of `decode_hiho_coded`
(Decoder_HIHO.hpp lines 175-178). -/
def wavesUpToCoded (d : Decoder_HIHO B) (ker : Kernel B) (Y : Nat → B) :
    Nat → WaveState B → Except DecoderError (WaveState B)
  | 0, s => .ok s
  | m + 1, s =>
    match d.wavesUpToCoded ker Y m s with
    | .error e => .error e
    | .ok s1 => d.fullWaveStepCoded ker Y m s1

/-- The padded final wave of `decode_hiho_coded`
(Decoder_HIHO.hpp lines 184-197): as `paddedWaveStep` but the kernel writes
`N * simd_inter_frame_level` elements into `V_KN` and the copy-back length is
`n_inter_frame_rest * N`. -/
def paddedWaveStepCoded (d : Decoder_HIHO B) (ker : Kernel B) (Y : Nat → B)
    (s : WaveState B) : Except DecoderError (WaveState B) :=
  let w := d.n_dec_waves - 1
  let waves_off1 := w * d.simd_inter_frame_level * d.N
  let sy := writeRange s.scratchY 0 (d.n_inter_frame_rest * d.N)
              (fun j => Y (waves_off1 + j))
  match ker (w * d.simd_inter_frame_level) sy with
  | .error e => .error e
  | .ok out =>
    let sv := writeRange s.scratchV 0 (d.N * d.simd_inter_frame_level) out
    let waves_off2 := w * d.simd_inter_frame_level * d.N
    .ok { s with
      V := writeRange s.V waves_off2 (d.n_inter_frame_rest * d.N) sv
      scratchY := sy
      scratchV := sv
      calls := s.calls ++ [WaveCall.padded (w * d.simd_inter_frame_level)] }

/-- The pointer-level `decode_hiho_coded(const B *Y_N, B *V_N)`
(Decoder_HIHO.hpp lines 172-198). -/
def decode_hiho_coded (d : Decoder_HIHO B) (ker : Kernel B) (Y V : Nat → B) :
    Except DecoderError (WaveState B) :=
  let s0 : WaveState B :=
    { V := V, scratchY := d.Y_N, scratchV := d.V_KN,
      scratchY_size := d.Y_N_size, scratchV_size := d.V_KN_size, calls := [] }
  match d.wavesUpToCoded ker Y (d.n_dec_waves - 1) s0 with
  | .error e => .error e
  | .ok s1 =>
    if d.n_inter_frame_rest = 0 then d.fullWaveStepCoded ker Y (d.n_dec_waves - 1) s1
    else d.paddedWaveStepCoded ker Y s1

end Decoder_HIHO

/-! ## Arithmetic facts about the wave count -/

lemma ceil_div_of_mod_eq_zero {F W : Nat} (hW : 0 < W) (hF : 0 < F)
    (h : F % W = 0) : (F + W - 1) / W = F / W := by
  have hqr := Nat.div_add_mod F W
  have hlt : W - 1 < W := by omega
  have hrw : F + W - 1 = W * (F / W) + (W - 1) := by omega
  rw [hrw, Nat.mul_add_div hW, Nat.div_eq_of_lt hlt]
  omega

lemma ceil_div_of_mod_ne_zero {F W : Nat} (hW : 0 < W)
    (h : F % W ≠ 0) : (F + W - 1) / W = F / W + 1 := by
  have hqr := Nat.div_add_mod F W
  have hrlt : F % W < W := Nat.mod_lt F hW
  have hws : W * (F / W + 1) = W * (F / W) + W := by ring
  have hrw : F + W - 1 = W * (F / W + 1) + (F % W - 1) := by omega
  have hlt : F % W - 1 < W := by omega
  rw [hrw, Nat.mul_add_div hW, Nat.div_eq_of_lt hlt]

namespace Decoder_HIHO

variable {B : Type}

/-- Characterisation of the leading full-wave loop of `decode_hiho` for a
kernel that never throws: it succeeds, leaves the scratch buffers (and their
sizes) untouched, records one `full` call per wave at the documented offsets,
leaves the output memory above `m * K * simd_inter_frame_level` unchanged and
fills each wave's output region with the kernel results. -/
lemma wavesUpTo_pure_char (d : Decoder_HIHO B) (kf : Nat → (Nat → B) → Nat → B)
    (Y : Nat → B) (m : Nat) (s : WaveState B) :
    ∃ s', d.wavesUpTo (pureKernel kf) Y m s = .ok s' ∧
      s'.scratchY = s.scratchY ∧ s'.scratchV = s.scratchV ∧
      s'.scratchY_size = s.scratchY_size ∧ s'.scratchV_size = s.scratchV_size ∧
      s'.calls = s.calls ++ (List.range m).map (fun w =>
        WaveCall.full (w * d.N * d.simd_inter_frame_level)
          (w * d.K * d.simd_inter_frame_level) (w * d.simd_inter_frame_level)) ∧
      (∀ i, m * d.K * d.simd_inter_frame_level ≤ i → s'.V i = s.V i) ∧
      (∀ w i, w < m → i < d.K * d.simd_inter_frame_level →
        s'.V (w * d.K * d.simd_inter_frame_level + i) =
          kf (w * d.simd_inter_frame_level)
            (fun j => Y (w * d.N * d.simd_inter_frame_level + j)) i) := by
  induction m with
  | zero =>
    refine ⟨s, rfl, rfl, rfl, rfl, rfl, by simp, fun i _ => rfl, fun w i hw _ => by omega⟩
  | succ m ih =>
    obtain ⟨s1, h1, hsy, hsv, hsz1, hsz2, hcalls, hhigh, hlow⟩ := ih
    refine ⟨{ s1 with
        V := writeRange s1.V (m * d.K * d.simd_inter_frame_level)
               (d.K * d.simd_inter_frame_level)
               (kf (m * d.simd_inter_frame_level)
                 (fun j => Y (m * d.N * d.simd_inter_frame_level + j)))
        calls := s1.calls ++ [WaveCall.full (m * d.N * d.simd_inter_frame_level)
                   (m * d.K * d.simd_inter_frame_level)
                   (m * d.simd_inter_frame_level)] },
      ?_, hsy, hsv, hsz1, hsz2, ?_, ?_, ?_⟩
    · show d.wavesUpTo (pureKernel kf) Y (m + 1) s = _
      simp only [wavesUpTo]
      rw [h1]
      rfl
    · show s1.calls ++ _ = _
      rw [hcalls, List.range_succ, List.map_append, List.append_assoc]
      rfl
    · intro i hi
      show writeRange s1.V (m * d.K * d.simd_inter_frame_level)
             (d.K * d.simd_inter_frame_level) _ i = s.V i
      have e1 : (m + 1) * d.K * d.simd_inter_frame_level
          = m * d.K * d.simd_inter_frame_level + d.K * d.simd_inter_frame_level := by
        ring
      rw [writeRange, if_neg (by omega)]
      exact hhigh i (by omega)
    · intro w i hw hi
      show writeRange s1.V (m * d.K * d.simd_inter_frame_level)
             (d.K * d.simd_inter_frame_level) _
             (w * d.K * d.simd_inter_frame_level + i) = _
      rw [writeRange]
      rcases Nat.lt_or_ge w m with hwm | hwm
      · have hle : (w + 1) * (d.K * d.simd_inter_frame_level)
            ≤ m * (d.K * d.simd_inter_frame_level) :=
          Nat.mul_le_mul_right _ hwm
        have e1 : (w + 1) * (d.K * d.simd_inter_frame_level)
            = w * d.K * d.simd_inter_frame_level + d.K * d.simd_inter_frame_level := by
          ring
        have e2 : m * (d.K * d.simd_inter_frame_level)
            = m * d.K * d.simd_inter_frame_level := by
          ring
        rw [if_neg (by omega)]
        exact hlow w i hwm hi
      · have hwm' : w = m := by omega
        subst hwm'
        rw [if_pos (by omega)]
        congr 1
        omega

lemma mkDecoder_K (K N F W : Nat) (b0 : B) : (mkDecoder K N F W b0).K = K := rfl

lemma mkDecoder_N (K N F W : Nat) (b0 : B) : (mkDecoder K N F W b0).N = N := rfl

lemma mkDecoder_n_frames (K N F W : Nat) (b0 : B) :
    (mkDecoder K N F W b0).n_frames = F := rfl

lemma mkDecoder_simd (K N F W : Nat) (b0 : B) :
    (mkDecoder K N F W b0).simd_inter_frame_level = W := rfl

lemma mkDecoder_rest (K N F W : Nat) (b0 : B) :
    (mkDecoder K N F W b0).n_inter_frame_rest = F % W := rfl

lemma mkDecoder_n_dec_waves (K N F W : Nat) (b0 : B) :
    (mkDecoder K N F W b0).n_dec_waves = (F + W - 1) / W := rfl

lemma mkDecoder_Y_N_size (K N F W : Nat) (b0 : B) :
    (mkDecoder K N F W b0).Y_N_size = if F % W ≠ 0 then W * N else 0 := rfl

lemma mkDecoder_V_KN_size (K N F W : Nat) (b0 : B) :
    (mkDecoder K N F W b0).V_KN_size = if F % W ≠ 0 then W * N else 0 := rfl

/-- `decode_hiho` unfolded once (definitional). -/
lemma decode_hiho_eq (d : Decoder_HIHO B) (ker : Kernel B) (Y V : Nat → B) :
    d.decode_hiho ker Y V =
      match d.wavesUpTo ker Y (d.n_dec_waves - 1)
          { V := V, scratchY := d.Y_N, scratchV := d.V_KN,
            scratchY_size := d.Y_N_size, scratchV_size := d.V_KN_size,
            calls := [] } with
      | .error e => .error e
      | .ok s1 =>
        if d.n_inter_frame_rest = 0 then d.fullWaveStep ker Y (d.n_dec_waves - 1) s1
        else d.paddedWaveStep ker Y s1 := rfl

/-- A full wave with a non-throwing kernel, evaluated (definitional). -/
lemma fullWaveStep_pure (d : Decoder_HIHO B) (kf : Nat → (Nat → B) → Nat → B)
    (Y : Nat → B) (w : Nat) (s : WaveState B) :
    d.fullWaveStep (pureKernel kf) Y w s = .ok { s with
      V := writeRange s.V (w * d.K * d.simd_inter_frame_level)
             (d.K * d.simd_inter_frame_level)
             (kf (w * d.simd_inter_frame_level)
               (fun j => Y (w * d.N * d.simd_inter_frame_level + j)))
      calls := s.calls ++ [WaveCall.full (w * d.N * d.simd_inter_frame_level)
                 (w * d.K * d.simd_inter_frame_level)
                 (w * d.simd_inter_frame_level)] } := rfl

/-- The padded wave with a non-throwing kernel, evaluated (definitional). -/
lemma paddedWaveStep_pure (d : Decoder_HIHO B) (kf : Nat → (Nat → B) → Nat → B)
    (Y : Nat → B) (s : WaveState B) :
    d.paddedWaveStep (pureKernel kf) Y s = .ok { s with
      V := writeRange s.V
             ((d.n_dec_waves - 1) * d.simd_inter_frame_level * d.K)
             (d.n_inter_frame_rest * d.K)
             (writeRange s.scratchV 0 (d.K * d.simd_inter_frame_level)
               (kf ((d.n_dec_waves - 1) * d.simd_inter_frame_level)
                 (writeRange s.scratchY 0 (d.n_inter_frame_rest * d.N)
                   (fun j => Y ((d.n_dec_waves - 1) * d.simd_inter_frame_level * d.N + j)))))
      scratchY := writeRange s.scratchY 0 (d.n_inter_frame_rest * d.N)
        (fun j => Y ((d.n_dec_waves - 1) * d.simd_inter_frame_level * d.N + j))
      scratchV := writeRange s.scratchV 0 (d.K * d.simd_inter_frame_level)
        (kf ((d.n_dec_waves - 1) * d.simd_inter_frame_level)
          (writeRange s.scratchY 0 (d.n_inter_frame_rest * d.N)
            (fun j => Y ((d.n_dec_waves - 1) * d.simd_inter_frame_level * d.N + j))))
      calls := s.calls ++ [WaveCall.padded ((d.n_dec_waves - 1) * d.simd_inter_frame_level)] }
    := rfl

/-- When `n_inter_frame_rest = 0` and the leading loop succeeded, `decode_hiho`
is the final full wave. -/
lemma decode_hiho_of_rest_eq_zero (d : Decoder_HIHO B) (ker : Kernel B)
    (Y V : Nat → B) (h : d.n_inter_frame_rest = 0) (s1 : WaveState B)
    (h1 : d.wavesUpTo ker Y (d.n_dec_waves - 1)
      { V := V, scratchY := d.Y_N, scratchV := d.V_KN,
        scratchY_size := d.Y_N_size, scratchV_size := d.V_KN_size,
        calls := [] } = .ok s1) :
    d.decode_hiho ker Y V = d.fullWaveStep ker Y (d.n_dec_waves - 1) s1 := by
  rw [decode_hiho_eq, h1]
  simp [h]

/-- When `n_inter_frame_rest ≠ 0` and the leading loop succeeded, `decode_hiho`
is the padded wave. -/
lemma decode_hiho_of_rest_ne_zero (d : Decoder_HIHO B) (ker : Kernel B)
    (Y V : Nat → B) (h : d.n_inter_frame_rest ≠ 0) (s1 : WaveState B)
    (h1 : d.wavesUpTo ker Y (d.n_dec_waves - 1)
      { V := V, scratchY := d.Y_N, scratchV := d.V_KN,
        scratchY_size := d.Y_N_size, scratchV_size := d.V_KN_size,
        calls := [] } = .ok s1) :
    d.decode_hiho ker Y V = d.paddedWaveStep ker Y s1 := by
  rw [decode_hiho_eq, h1]
  simp [h]

/-- `decode_hiho_coded` unfolded once (definitional). -/
lemma decode_hiho_coded_eq (d : Decoder_HIHO B) (ker : Kernel B) (Y V : Nat → B) :
    d.decode_hiho_coded ker Y V =
      match d.wavesUpToCoded ker Y (d.n_dec_waves - 1)
          { V := V, scratchY := d.Y_N, scratchV := d.V_KN,
            scratchY_size := d.Y_N_size, scratchV_size := d.V_KN_size,
            calls := [] } with
      | .error e => .error e
      | .ok s1 =>
        if d.n_inter_frame_rest = 0 then d.fullWaveStepCoded ker Y (d.n_dec_waves - 1) s1
        else d.paddedWaveStepCoded ker Y s1 := rfl

/-- A successful full wave never touches the scratch buffers or their sizes. -/
lemma fullWaveStep_sizes (d : Decoder_HIHO B) (ker : Kernel B) (Y : Nat → B)
    (w : Nat) (s s' : WaveState B) (h : d.fullWaveStep ker Y w s = .ok s') :
    s'.scratchY_size = s.scratchY_size ∧ s'.scratchV_size = s.scratchV_size := by
  unfold fullWaveStep at h
  cases hk : ker (w * d.simd_inter_frame_level)
      (fun j => Y (w * d.N * d.simd_inter_frame_level + j)) with
  | error e =>
    rw [hk] at h
    cases h
  | ok out =>
    rw [hk] at h
    cases h
    exact ⟨rfl, rfl⟩

/-- The full-wave loop never changes the scratch sizes. -/
lemma wavesUpTo_sizes (d : Decoder_HIHO B) (ker : Kernel B) (Y : Nat → B) :
    ∀ (m : Nat) (s s' : WaveState B), d.wavesUpTo ker Y m s = .ok s' →
      s'.scratchY_size = s.scratchY_size ∧ s'.scratchV_size = s.scratchV_size := by
  intro m
  induction m with
  | zero =>
    intro s s' h
    cases h
    exact ⟨rfl, rfl⟩
  | succ m ih =>
    intro s s' h
    rw [wavesUpTo] at h
    cases h1 : d.wavesUpTo ker Y m s with
    | error e =>
      rw [h1] at h
      cases h
    | ok s1 =>
      rw [h1] at h
      have h2 := fullWaveStep_sizes d ker Y m s1 s' h
      have h3 := ih s s1 h1
      exact ⟨h2.1.trans h3.1, h2.2.trans h3.2⟩

/-- A successful padded wave writes the scratch contents but never their sizes. -/
lemma paddedWaveStep_sizes (d : Decoder_HIHO B) (ker : Kernel B) (Y : Nat → B)
    (s s' : WaveState B) (h : d.paddedWaveStep ker Y s = .ok s') :
    s'.scratchY_size = s.scratchY_size ∧ s'.scratchV_size = s.scratchV_size := by
  simp only [paddedWaveStep] at h
  cases hk : ker ((d.n_dec_waves - 1) * d.simd_inter_frame_level)
      (writeRange s.scratchY 0 (d.n_inter_frame_rest * d.N)
        (fun j => Y ((d.n_dec_waves - 1) * d.simd_inter_frame_level * d.N + j))) with
  | error e =>
    rw [hk] at h
    cases h
  | ok out =>
    rw [hk] at h
    cases h
    exact ⟨rfl, rfl⟩

/-- A successful `decode_hiho` call leaves the scratch allocation sizes exactly
as the constructor set them: the scratch region is reused, never resized. -/
lemma decode_hiho_sizes (d : Decoder_HIHO B) (ker : Kernel B) (Y V : Nat → B)
    (s : WaveState B) (h : d.decode_hiho ker Y V = .ok s) :
    s.scratchY_size = d.Y_N_size ∧ s.scratchV_size = d.V_KN_size := by
  cases h1 : d.wavesUpTo ker Y (d.n_dec_waves - 1)
      { V := V, scratchY := d.Y_N, scratchV := d.V_KN,
        scratchY_size := d.Y_N_size, scratchV_size := d.V_KN_size,
        calls := [] } with
  | error e =>
    rw [decode_hiho_eq, h1] at h
    cases h
  | ok s1 =>
    have hs1 := wavesUpTo_sizes d ker Y _ _ _ h1
    by_cases hrest : d.n_inter_frame_rest = 0
    · rw [decode_hiho_of_rest_eq_zero d ker Y V hrest s1 h1] at h
      have h2 := fullWaveStep_sizes d ker Y _ _ _ h
      exact ⟨h2.1.trans hs1.1, h2.2.trans hs1.2⟩
    · rw [decode_hiho_of_rest_ne_zero d ker Y V hrest s1 h1] at h
      have h2 := paddedWaveStep_sizes d ker Y _ _ h
      exact ⟨h2.1.trans hs1.1, h2.2.trans hs1.2⟩

/-- As `fullWaveStep_sizes`, for `decode_hiho_coded`. -/
lemma fullWaveStepCoded_sizes (d : Decoder_HIHO B) (ker : Kernel B) (Y : Nat → B)
    (w : Nat) (s s' : WaveState B) (h : d.fullWaveStepCoded ker Y w s = .ok s') :
    s'.scratchY_size = s.scratchY_size ∧ s'.scratchV_size = s.scratchV_size := by
  unfold fullWaveStepCoded at h
  cases hk : ker (w * d.simd_inter_frame_level)
      (fun j => Y (w * d.N * d.simd_inter_frame_level + j)) with
  | error e =>
    rw [hk] at h
    cases h
  | ok out =>
    rw [hk] at h
    cases h
    exact ⟨rfl, rfl⟩

/-- As `wavesUpTo_sizes`, for `decode_hiho_coded`. -/
lemma wavesUpToCoded_sizes (d : Decoder_HIHO B) (ker : Kernel B) (Y : Nat → B) :
    ∀ (m : Nat) (s s' : WaveState B), d.wavesUpToCoded ker Y m s = .ok s' →
      s'.scratchY_size = s.scratchY_size ∧ s'.scratchV_size = s.scratchV_size := by
  intro m
  induction m with
  | zero =>
    intro s s' h
    cases h
    exact ⟨rfl, rfl⟩
  | succ m ih =>
    intro s s' h
    rw [wavesUpToCoded] at h
    cases h1 : d.wavesUpToCoded ker Y m s with
    | error e =>
      rw [h1] at h
      cases h
    | ok s1 =>
      rw [h1] at h
      have h2 := fullWaveStepCoded_sizes d ker Y m s1 s' h
      have h3 := ih s s1 h1
      exact ⟨h2.1.trans h3.1, h2.2.trans h3.2⟩

/-- As `paddedWaveStep_sizes`, for `decode_hiho_coded`. -/
lemma paddedWaveStepCoded_sizes (d : Decoder_HIHO B) (ker : Kernel B) (Y : Nat → B)
    (s s' : WaveState B) (h : d.paddedWaveStepCoded ker Y s = .ok s') :
    s'.scratchY_size = s.scratchY_size ∧ s'.scratchV_size = s.scratchV_size := by
  simp only [paddedWaveStepCoded] at h
  cases hk : ker ((d.n_dec_waves - 1) * d.simd_inter_frame_level)
      (writeRange s.scratchY 0 (d.n_inter_frame_rest * d.N)
        (fun j => Y ((d.n_dec_waves - 1) * d.simd_inter_frame_level * d.N + j))) with
  | error e =>
    rw [hk] at h
    cases h
  | ok out =>
    rw [hk] at h
    cases h
    exact ⟨rfl, rfl⟩

/-- When `n_inter_frame_rest = 0` and the leading loop succeeded,
`decode_hiho_coded` is the final full wave. -/
lemma decode_hiho_coded_of_rest_eq_zero (d : Decoder_HIHO B) (ker : Kernel B)
    (Y V : Nat → B) (h : d.n_inter_frame_rest = 0) (s1 : WaveState B)
    (h1 : d.wavesUpToCoded ker Y (d.n_dec_waves - 1)
      { V := V, scratchY := d.Y_N, scratchV := d.V_KN,
        scratchY_size := d.Y_N_size, scratchV_size := d.V_KN_size,
        calls := [] } = .ok s1) :
    d.decode_hiho_coded ker Y V = d.fullWaveStepCoded ker Y (d.n_dec_waves - 1) s1 := by
  rw [decode_hiho_coded_eq, h1]
  simp [h]

/-- When `n_inter_frame_rest ≠ 0` and the leading loop succeeded,
`decode_hiho_coded` is the padded wave. -/
lemma decode_hiho_coded_of_rest_ne_zero (d : Decoder_HIHO B) (ker : Kernel B)
    (Y V : Nat → B) (h : d.n_inter_frame_rest ≠ 0) (s1 : WaveState B)
    (h1 : d.wavesUpToCoded ker Y (d.n_dec_waves - 1)
      { V := V, scratchY := d.Y_N, scratchV := d.V_KN,
        scratchY_size := d.Y_N_size, scratchV_size := d.V_KN_size,
        calls := [] } = .ok s1) :
    d.decode_hiho_coded ker Y V = d.paddedWaveStepCoded ker Y s1 := by
  rw [decode_hiho_coded_eq, h1]
  simp [h]

/-- As `decode_hiho_sizes`, for `decode_hiho_coded`. -/
lemma decode_hiho_coded_sizes (d : Decoder_HIHO B) (ker : Kernel B)
    (Y V : Nat → B) (s : WaveState B) (h : d.decode_hiho_coded ker Y V = .ok s) :
    s.scratchY_size = d.Y_N_size ∧ s.scratchV_size = d.V_KN_size := by
  cases h1 : d.wavesUpToCoded ker Y (d.n_dec_waves - 1)
      { V := V, scratchY := d.Y_N, scratchV := d.V_KN,
        scratchY_size := d.Y_N_size, scratchV_size := d.V_KN_size,
        calls := [] } with
  | error e =>
    rw [decode_hiho_coded_eq, h1] at h
    cases h
  | ok s1 =>
    have hs1 := wavesUpToCoded_sizes d ker Y _ _ _ h1
    by_cases hrest : d.n_inter_frame_rest = 0
    · rw [decode_hiho_coded_of_rest_eq_zero d ker Y V hrest s1 h1] at h
      have h2 := fullWaveStepCoded_sizes d ker Y _ _ _ h
      exact ⟨h2.1.trans hs1.1, h2.2.trans hs1.2⟩
    · rw [decode_hiho_coded_of_rest_ne_zero d ker Y V hrest s1 h1] at h
      have h2 := paddedWaveStepCoded_sizes d ker Y _ _ h
      exact ⟨h2.1.trans hs1.1, h2.2.trans hs1.2⟩

/-- A kernel that never throws makes the whole `decode_hiho` call succeed. -/
lemma decode_hiho_pure_ok (d : Decoder_HIHO B) (kf : Nat → (Nat → B) → Nat → B)
    (Y V : Nat → B) :
    ∃ s, d.decode_hiho (pureKernel kf) Y V = .ok s := by
  obtain ⟨s1, h1, _, _, _, _, _, _, _⟩ :=
    wavesUpTo_pure_char d kf Y (d.n_dec_waves - 1)
      { V := V, scratchY := d.Y_N, scratchV := d.V_KN,
        scratchY_size := d.Y_N_size, scratchV_size := d.V_KN_size, calls := [] }
  by_cases hrest : d.n_inter_frame_rest = 0
  · rw [decode_hiho_of_rest_eq_zero d _ Y V hrest s1 h1, fullWaveStep_pure]
    exact ⟨_, rfl⟩
  · rw [decode_hiho_of_rest_ne_zero d _ Y V hrest s1 h1, paddedWaveStep_pure]
    exact ⟨_, rfl⟩

end Decoder_HIHO

/-- Two buffers agreeing on every aligned block of length `N * W` below wave
`m` agree on every index below `m * (N * W)`. -/
lemma lowRegion_eq {B : Type} (N W m : Nat) (f g : Nat → B)
    (h : ∀ w r, w < m → r < N * W → f (w * N * W + r) = g (w * N * W + r)) :
    ∀ i, i < m * (N * W) → f i = g i := by
  intro i hi
  have hNW : 0 < N * W := by
    rcases Nat.eq_zero_or_pos (N * W) with h0 | h0
    · rw [h0, Nat.mul_zero] at hi
      omega
    · exact h0
  have hdm := Nat.div_add_mod i (N * W)
  have hrlt : i % (N * W) < N * W := Nat.mod_lt i hNW
  have hq : i / (N * W) < m := by
    rcases Nat.lt_or_ge (i / (N * W)) m with h' | h'
    · exact h'
    · exfalso
      have hmul := Nat.mul_le_mul_left (N * W) h'
      have e : m * (N * W) = (N * W) * m := by ring
      omega
  have heq : (i / (N * W)) * N * W + i % (N * W) = i := by
    have e : (i / (N * W)) * N * W = (N * W) * (i / (N * W)) := by ring
    omega
  have hres := h (i / (N * W)) (i % (N * W)) hq hrlt
  rw [heq] at hres
  exact hres

open Decoder_HIHO

/-- C1: Wave Scheduler identity round-trip — for every frame count `F ≥ 1` and
SIMD width `W ≥ 1`, running `Decoder_HIHO_i::decode_hiho` (full waves plus an
optional padded wave) with an identity kernel (`_decode_hiho` copies its input
frames to its output frames, so `K = N`) produces an output buffer equal to the
input buffer on all `F` frames, whether or not `F mod W = 0`. -/
theorem C1_wave_scheduler_identity_roundtrip {B : Type} (F W N : Nat) (b0 : B)
    (Y V : Nat → B) (hF : 1 ≤ F) (hW : 1 ≤ W) :
    ∃ s, (mkDecoder N N F W b0).decode_hiho (pureKernel (fun _ v => v)) Y V
        = Except.ok s ∧ ∀ i, i < F * N → s.V i = Y i := by
  obtain ⟨s1, h1, hsy, hsv, hsz1, hsz2, hcalls, hhigh, hlow⟩ :=
    wavesUpTo_pure_char (mkDecoder N N F W b0) (fun _ v => v) Y
      ((mkDecoder N N F W b0).n_dec_waves - 1)
      { V := V, scratchY := (mkDecoder N N F W b0).Y_N,
        scratchV := (mkDecoder N N F W b0).V_KN,
        scratchY_size := (mkDecoder N N F W b0).Y_N_size,
        scratchV_size := (mkDecoder N N F W b0).V_KN_size, calls := [] }
  by_cases hr0 : F % W = 0
  · have hFW : W ≤ F := by
      rcases Nat.lt_or_ge F W with h' | h'
      · rw [Nat.mod_eq_of_lt h'] at hr0
        omega
      · exact h'
    have hdiv : 0 < F / W := Nat.div_pos hFW (by omega)
    have hndw : (mkDecoder N N F W b0 : Decoder_HIHO B).n_dec_waves = F / W := by
      rw [mkDecoder_n_dec_waves]
      exact ceil_div_of_mod_eq_zero (by omega) (by omega) hr0
    have hFq : W * (F / W) = F := by
      have := Nat.div_add_mod F W
      omega
    rw [hndw] at hlow
    have hlowY : ∀ i, i < (F / W - 1) * (N * W) → s1.V i = Y i := by
      refine lowRegion_eq N W (F / W - 1) s1.V Y ?_
      intro w r hw hr
      exact hlow w r hw hr
    have hdec := decode_hiho_of_rest_eq_zero (mkDecoder N N F W b0)
      (pureKernel (fun _ v => v)) Y V (by rw [mkDecoder_rest]; exact hr0) s1 h1
    rw [fullWaveStep_pure] at hdec
    refine ⟨_, hdec, ?_⟩
    intro i hi
    show writeRange s1.V
        (((mkDecoder N N F W b0 : Decoder_HIHO B).n_dec_waves - 1)
          * (mkDecoder N N F W b0 : Decoder_HIHO B).K
          * (mkDecoder N N F W b0 : Decoder_HIHO B).simd_inter_frame_level)
        ((mkDecoder N N F W b0 : Decoder_HIHO B).K
          * (mkDecoder N N F W b0 : Decoder_HIHO B).simd_inter_frame_level)
        ((fun _ v => v)
          (((mkDecoder N N F W b0 : Decoder_HIHO B).n_dec_waves - 1)
            * (mkDecoder N N F W b0 : Decoder_HIHO B).simd_inter_frame_level)
          (fun j => Y (((mkDecoder N N F W b0 : Decoder_HIHO B).n_dec_waves - 1)
            * (mkDecoder N N F W b0 : Decoder_HIHO B).N
            * (mkDecoder N N F W b0 : Decoder_HIHO B).simd_inter_frame_level + j)))
        i = Y i
    simp only [mkDecoder_K, mkDecoder_N, mkDecoder_simd, hndw, writeRange]
    have hFN : F * N = (F / W) * (N * W) := by
      calc F * N = (W * (F / W)) * N := by rw [hFq]
      _ = (F / W) * (N * W) := by ring
    have e1 : (F / W) * (N * W) = (F / W - 1) * (N * W) + N * W := by
      have h2 : F / W - 1 + 1 = F / W := by omega
      calc (F / W) * (N * W) = (F / W - 1 + 1) * (N * W) := by rw [h2]
      _ = (F / W - 1) * (N * W) + N * W := by ring
    have e2 : (F / W - 1) * N * W = (F / W - 1) * (N * W) := by ring
    by_cases hin : (F / W - 1) * N * W ≤ i ∧ i < (F / W - 1) * N * W + N * W
    · rw [if_pos hin]
      congr 1
      omega
    · rw [if_neg hin]
      have hlt : i < (F / W - 1) * (N * W) := by omega
      exact hlowY i hlt
  · have hrlt : F % W < W := Nat.mod_lt F (by omega)
    have hndw : (mkDecoder N N F W b0 : Decoder_HIHO B).n_dec_waves = F / W + 1 := by
      rw [mkDecoder_n_dec_waves]
      exact ceil_div_of_mod_ne_zero (by omega) hr0
    rw [hndw] at hlow
    simp only [Nat.add_sub_cancel] at hlow
    have hlowY : ∀ i, i < (F / W) * (N * W) → s1.V i = Y i := by
      refine lowRegion_eq N W (F / W) s1.V Y ?_
      intro w r hw hr
      exact hlow w r hw hr
    have hdec := decode_hiho_of_rest_ne_zero (mkDecoder N N F W b0)
      (pureKernel (fun _ v => v)) Y V (by rw [mkDecoder_rest]; exact hr0) s1 h1
    rw [paddedWaveStep_pure] at hdec
    refine ⟨_, hdec, ?_⟩
    intro i hi
    have hFN : F * N = (F / W) * (N * W) + F % W * N := by
      have hdm := Nat.div_add_mod F W
      calc F * N = (W * (F / W) + F % W) * N := by rw [hdm]
      _ = (F / W) * (N * W) + F % W * N := by ring
    have e2 : (F / W) * W * N = (F / W) * (N * W) := by ring
    have hWN : F % W * N ≤ N * W := by
      have h1 : F % W * N ≤ W * N := Nat.mul_le_mul_right N (le_of_lt hrlt)
      have e : W * N = N * W := by ring
      omega
    show writeRange s1.V
        (((mkDecoder N N F W b0 : Decoder_HIHO B).n_dec_waves - 1)
          * (mkDecoder N N F W b0 : Decoder_HIHO B).simd_inter_frame_level
          * (mkDecoder N N F W b0 : Decoder_HIHO B).K)
        ((mkDecoder N N F W b0 : Decoder_HIHO B).n_inter_frame_rest
          * (mkDecoder N N F W b0 : Decoder_HIHO B).K)
        (writeRange s1.scratchV 0
          ((mkDecoder N N F W b0 : Decoder_HIHO B).K
            * (mkDecoder N N F W b0 : Decoder_HIHO B).simd_inter_frame_level)
          ((fun _ v => v)
            (((mkDecoder N N F W b0 : Decoder_HIHO B).n_dec_waves - 1)
              * (mkDecoder N N F W b0 : Decoder_HIHO B).simd_inter_frame_level)
            (writeRange s1.scratchY 0
              ((mkDecoder N N F W b0 : Decoder_HIHO B).n_inter_frame_rest
                * (mkDecoder N N F W b0 : Decoder_HIHO B).N)
              (fun j => Y (((mkDecoder N N F W b0 : Decoder_HIHO B).n_dec_waves - 1)
                * (mkDecoder N N F W b0 : Decoder_HIHO B).simd_inter_frame_level
                * (mkDecoder N N F W b0 : Decoder_HIHO B).N + j)))))
        i = Y i
    simp only [mkDecoder_K, mkDecoder_N, mkDecoder_simd, mkDecoder_rest, hndw,
      Nat.add_sub_cancel, writeRange, Nat.sub_zero, Nat.zero_add, Nat.zero_le,
      true_and]
    by_cases hin : (F / W) * W * N ≤ i ∧ i < (F / W) * W * N + F % W * N
    · rw [if_pos hin]
      have ht2 : i - (F / W) * W * N < F % W * N := by omega
      have ht1 : i - (F / W) * W * N < N * W := by omega
      rw [if_pos ht1, if_pos ht2]
      congr 1
      omega
    · rw [if_neg hin]
      have hlt : i < (F / W) * (N * W) := by omega
      exact hlowY i hlt

/-- C2: Wave count and shape — for every `F ≥ 1` and `W ≥ 1`, `decode_hiho`
invokes the width-`W` kernel exactly `⌊F / W⌋` times directly on the true
input/output memory (wave `w` at input offset `w * N * W`, output offset
`w * K * W`, frame id `w * W`) and exactly one additional time through the
scratch buffers if and only if `F mod W > 0`; moreover `F < W` gives zero full
waves and one padded wave whose valid region has length `F`. -/
theorem C2_wave_count_and_shape {B : Type} (F W N K : Nat) (b0 : B)
    (kf : Nat → (Nat → B) → Nat → B) (Y V : Nat → B) (hF : 1 ≤ F) (hW : 1 ≤ W) :
    ∃ s, (mkDecoder K N F W b0).decode_hiho (pureKernel kf) Y V = Except.ok s ∧
      s.calls = (List.range (F / W)).map (fun w =>
          WaveCall.full (w * N * W) (w * K * W) (w * W)) ++
        (if F % W = 0 then [] else [WaveCall.padded (F / W * W)]) ∧
      (mkDecoder K N F W b0 : Decoder_HIHO B).n_inter_frame_rest = F % W ∧
      (F < W → (mkDecoder K N F W b0 : Decoder_HIHO B).n_inter_frame_rest = F ∧
        F / W = 0) := by
  obtain ⟨s1, h1, hsy, hsv, hsz1, hsz2, hcalls, hhigh, hlow⟩ :=
    wavesUpTo_pure_char (mkDecoder K N F W b0) kf Y
      ((mkDecoder K N F W b0).n_dec_waves - 1)
      { V := V, scratchY := (mkDecoder K N F W b0).Y_N,
        scratchV := (mkDecoder K N F W b0).V_KN,
        scratchY_size := (mkDecoder K N F W b0).Y_N_size,
        scratchV_size := (mkDecoder K N F W b0).V_KN_size, calls := [] }
  have hsmall : F < W → (mkDecoder K N F W b0 : Decoder_HIHO B).n_inter_frame_rest = F ∧
      F / W = 0 := by
    intro hlt
    exact ⟨by rw [mkDecoder_rest]; exact Nat.mod_eq_of_lt hlt, Nat.div_eq_of_lt hlt⟩
  by_cases hr0 : F % W = 0
  · have hFW : W ≤ F := by
      rcases Nat.lt_or_ge F W with h' | h'
      · rw [Nat.mod_eq_of_lt h'] at hr0
        omega
      · exact h'
    have hdiv : 0 < F / W := Nat.div_pos hFW (by omega)
    have hndw : (mkDecoder K N F W b0 : Decoder_HIHO B).n_dec_waves = F / W := by
      rw [mkDecoder_n_dec_waves]
      exact ceil_div_of_mod_eq_zero (by omega) (by omega) hr0
    have hdec := decode_hiho_of_rest_eq_zero (mkDecoder K N F W b0)
      (pureKernel kf) Y V (by rw [mkDecoder_rest]; exact hr0) s1 h1
    rw [fullWaveStep_pure] at hdec
    refine ⟨_, hdec, ?_, by rw [mkDecoder_rest], hsmall⟩
    show s1.calls ++ [WaveCall.full
        (((mkDecoder K N F W b0 : Decoder_HIHO B).n_dec_waves - 1)
          * (mkDecoder K N F W b0 : Decoder_HIHO B).N
          * (mkDecoder K N F W b0 : Decoder_HIHO B).simd_inter_frame_level)
        (((mkDecoder K N F W b0 : Decoder_HIHO B).n_dec_waves - 1)
          * (mkDecoder K N F W b0 : Decoder_HIHO B).K
          * (mkDecoder K N F W b0 : Decoder_HIHO B).simd_inter_frame_level)
        (((mkDecoder K N F W b0 : Decoder_HIHO B).n_dec_waves - 1)
          * (mkDecoder K N F W b0 : Decoder_HIHO B).simd_inter_frame_level)] = _
    rw [hcalls, if_pos hr0]
    simp only [mkDecoder_N, mkDecoder_K, mkDecoder_simd, hndw, List.nil_append,
      List.append_nil]
    have h2 : F / W = (F / W - 1) + 1 := by omega
    conv_rhs => rw [h2, List.range_succ, List.map_append]
    rfl
  · have hndw : (mkDecoder K N F W b0 : Decoder_HIHO B).n_dec_waves = F / W + 1 := by
      rw [mkDecoder_n_dec_waves]
      exact ceil_div_of_mod_ne_zero (by omega) hr0
    have hdec := decode_hiho_of_rest_ne_zero (mkDecoder K N F W b0)
      (pureKernel kf) Y V (by rw [mkDecoder_rest]; exact hr0) s1 h1
    rw [paddedWaveStep_pure] at hdec
    refine ⟨_, hdec, ?_, by rw [mkDecoder_rest], hsmall⟩
    show s1.calls ++ [WaveCall.padded
        (((mkDecoder K N F W b0 : Decoder_HIHO B).n_dec_waves - 1)
          * (mkDecoder K N F W b0 : Decoder_HIHO B).simd_inter_frame_level)] = _
    rw [hcalls, if_neg hr0]
    simp only [mkDecoder_N, mkDecoder_K, mkDecoder_simd, hndw, Nat.add_sub_cancel,
      List.nil_append]

/-- C3: Padded-wave framing — when `remainder = F mod W > 0`, `decode_hiho`
copies exactly `remainder * N` leftover input elements into the scratch buffer
before the kernel call (the scratch tail beyond them is left stale), runs the
kernel on the scratch buffers, copies back exactly the first `remainder * K`
results to the true output at the last-wave offset, and leaves every output
element outside that valid region unchanged by the padded-wave step. -/
theorem C3_padded_wave_framing {B : Type} (F W N K : Nat) (b0 : B)
    (kf : Nat → (Nat → B) → Nat → B) (Y V : Nat → B) (hF : 1 ≤ F) (hW : 1 ≤ W)
    (hr : F % W ≠ 0) :
    ∃ s1 s2,
      (mkDecoder K N F W b0).wavesUpTo (pureKernel kf) Y
        ((mkDecoder K N F W b0).n_dec_waves - 1)
        { V := V, scratchY := (mkDecoder K N F W b0).Y_N,
          scratchV := (mkDecoder K N F W b0).V_KN,
          scratchY_size := (mkDecoder K N F W b0).Y_N_size,
          scratchV_size := (mkDecoder K N F W b0).V_KN_size, calls := [] }
        = Except.ok s1 ∧
      (mkDecoder K N F W b0).decode_hiho (pureKernel kf) Y V = Except.ok s2 ∧
      (∀ j, j < F % W * N → s2.scratchY j = Y (F / W * W * N + j)) ∧
      (∀ j, F % W * N ≤ j → s2.scratchY j = s1.scratchY j) ∧
      (∀ i, i < K * W → s2.scratchV i = kf (F / W * W) s2.scratchY i) ∧
      (∀ i, i < F % W * K → s2.V (F / W * W * K + i) = s2.scratchV i) ∧
      (∀ i, i < F / W * W * K ∨ F / W * W * K + F % W * K ≤ i →
        s2.V i = s1.V i) := by
  obtain ⟨s1, h1, hsy, hsv, hsz1, hsz2, hcalls, hhigh, hlow⟩ :=
    wavesUpTo_pure_char (mkDecoder K N F W b0) kf Y
      ((mkDecoder K N F W b0).n_dec_waves - 1)
      { V := V, scratchY := (mkDecoder K N F W b0).Y_N,
        scratchV := (mkDecoder K N F W b0).V_KN,
        scratchY_size := (mkDecoder K N F W b0).Y_N_size,
        scratchV_size := (mkDecoder K N F W b0).V_KN_size, calls := [] }
  have hndw : (mkDecoder K N F W b0 : Decoder_HIHO B).n_dec_waves = F / W + 1 := by
    rw [mkDecoder_n_dec_waves]
    exact ceil_div_of_mod_ne_zero (by omega) hr
  have hdec := decode_hiho_of_rest_ne_zero (mkDecoder K N F W b0)
    (pureKernel kf) Y V (by rw [mkDecoder_rest]; exact hr) s1 h1
  rw [paddedWaveStep_pure] at hdec
  refine ⟨s1, _, h1, hdec, ?_, ?_, ?_, ?_, ?_⟩
  · intro j hj
    simp only [mkDecoder_N, mkDecoder_K, mkDecoder_simd, mkDecoder_rest, hndw,
      Nat.add_sub_cancel, writeRange, Nat.sub_zero, Nat.zero_add, Nat.zero_le,
      true_and]
    rw [if_pos hj]
  · intro j hj
    simp only [mkDecoder_N, mkDecoder_K, mkDecoder_simd, mkDecoder_rest, hndw,
      Nat.add_sub_cancel, writeRange, Nat.sub_zero, Nat.zero_add, Nat.zero_le,
      true_and]
    rw [if_neg (by omega)]
  · intro i hi
    simp only [mkDecoder_N, mkDecoder_K, mkDecoder_simd, mkDecoder_rest, hndw,
      Nat.add_sub_cancel, writeRange, Nat.sub_zero, Nat.zero_add, Nat.zero_le,
      true_and]
    have e : K * W = W * K := by ring
    rw [if_pos (by omega)]
  · intro i hi
    simp only [mkDecoder_N, mkDecoder_K, mkDecoder_simd, mkDecoder_rest, hndw,
      Nat.add_sub_cancel, writeRange, Nat.sub_zero, Nat.zero_add, Nat.zero_le,
      true_and]
    generalize F / W * W * K = off
    have hc : off ≤ off + i ∧ off + i < off + F % W * K :=
      ⟨Nat.le_add_right _ _, by omega⟩
    rw [if_pos hc, show off + i - off = i from by omega]
  · intro i hi
    simp only [mkDecoder_N, mkDecoder_K, mkDecoder_simd, mkDecoder_rest, hndw,
      Nat.add_sub_cancel, writeRange, Nat.sub_zero, Nat.zero_add, Nat.zero_le,
      true_and]
    revert hi
    generalize F / W * W * K = off
    intro hi
    rw [if_neg (by omega)]

/-- C4 counterexample: the claim says the scratch buffers always hold
`simd_inter_frame_level * N` elements, but the constructor allocates them with
`0` elements whenever `n_frames mod simd_inter_frame_level = 0` — e.g. for
`K = N = 1`, `n_frames = 1`, `simd_inter_frame_level = 1` the sizes are `0`,
not `1 * 1`. -/
theorem C4_scratch_size_counterexample :
    ¬ ((mkDecoder 1 1 1 1 (0 : Int)).Y_N_size
        = (mkDecoder 1 1 1 1 (0 : Int)).simd_inter_frame_level
          * (mkDecoder 1 1 1 1 (0 : Int)).N ∧
       (mkDecoder 1 1 1 1 (0 : Int)).V_KN_size
        = (mkDecoder 1 1 1 1 (0 : Int)).simd_inter_frame_level
          * (mkDecoder 1 1 1 1 (0 : Int)).N) := by
  decide

/-- C4 (amended): the scratch buffers `Y_N` and `V_KN` are sized once at
construction — to `simd_inter_frame_level * N` elements each when
`n_frames mod simd_inter_frame_level ≠ 0`, and to `0` elements otherwise — and
every successful `decode_hiho` or `decode_hiho_coded` call leaves those
allocated sizes unchanged, so repeated calls reuse the same scratch region. -/
theorem C4_scratch_buffers_sized_once {B : Type} (K N F W : Nat) (b0 : B) :
    ((mkDecoder K N F W b0 : Decoder_HIHO B).Y_N_size
        = if F % W ≠ 0 then W * N else 0) ∧
    ((mkDecoder K N F W b0 : Decoder_HIHO B).V_KN_size
        = if F % W ≠ 0 then W * N else 0) ∧
    (∀ (ker : Kernel B) (Y V : Nat → B) (s : WaveState B),
      (mkDecoder K N F W b0).decode_hiho ker Y V = Except.ok s →
        s.scratchY_size = (mkDecoder K N F W b0 : Decoder_HIHO B).Y_N_size ∧
        s.scratchV_size = (mkDecoder K N F W b0 : Decoder_HIHO B).V_KN_size) ∧
    (∀ (ker : Kernel B) (Y V : Nat → B) (s : WaveState B),
      (mkDecoder K N F W b0).decode_hiho_coded ker Y V = Except.ok s →
        s.scratchY_size = (mkDecoder K N F W b0 : Decoder_HIHO B).Y_N_size ∧
        s.scratchV_size = (mkDecoder K N F W b0 : Decoder_HIHO B).V_KN_size) := by
  refine ⟨mkDecoder_Y_N_size K N F W b0, mkDecoder_V_KN_size K N F W b0, ?_, ?_⟩
  · intro ker Y V s h
    exact decode_hiho_sizes (mkDecoder K N F W b0) ker Y V s h
  · intro ker Y V s h
    exact decode_hiho_coded_sizes (mkDecoder K N F W b0) ker Y V s h

/-- C5: Size-mismatch detection raises iff sizes disagree — the vector
overload of `decode_hiho` raises `tools::length_error` if and only if the
input vector's size differs from `N * n_frames` or the output vector's size
differs from `K * n_frames`; when both sizes match, no size error is raised
and the pointer-level wave algorithm is invoked on the vectors' data. -/
theorem C5_size_mismatch_iff {B : Type} (K N F W : Nat) (b0 : B)
    (kf : Nat → (Nat → B) → Nat → B) (Yv Vv : List B) :
    ((mkDecoder K N F W b0).decode_hiho_vec b0 (pureKernel kf) Yv Vv
        = Except.error DecoderError.length_error
      ↔ (N * F ≠ Yv.length ∨ K * F ≠ Vv.length)) ∧
    (N * F = Yv.length → K * F = Vv.length →
      (mkDecoder K N F W b0).decode_hiho_vec b0 (pureKernel kf) Yv Vv
        = (mkDecoder K N F W b0).decode_hiho (pureKernel kf)
            (fun i => Yv.getD i b0) (fun i => Vv.getD i b0)) := by
  have hvec : (mkDecoder K N F W b0).decode_hiho_vec b0 (pureKernel kf) Yv Vv
      = if N * F ≠ Yv.length then Except.error DecoderError.length_error
        else if K * F ≠ Vv.length then Except.error DecoderError.length_error
        else (mkDecoder K N F W b0).decode_hiho (pureKernel kf)
          (fun i => Yv.getD i b0) (fun i => Vv.getD i b0) := rfl
  by_cases hY : N * F = Yv.length
  · by_cases hV : K * F = Vv.length
    · obtain ⟨s, hs⟩ := decode_hiho_pure_ok (mkDecoder K N F W b0) kf
        (fun i => Yv.getD i b0) (fun i => Vv.getD i b0)
      constructor
      · rw [hvec, if_neg (not_not_intro hY), if_neg (not_not_intro hV), hs]
        constructor
        · intro h
          exact Except.noConfusion h
        · intro h
          rcases h with h | h
          · exact absurd hY h
          · exact absurd hV h
      · intro _ _
        rw [hvec, if_neg (not_not_intro hY), if_neg (not_not_intro hV)]
    · constructor
      · rw [hvec, if_neg (not_not_intro hY), if_pos hV]
        exact ⟨fun _ => Or.inr hV, fun _ => rfl⟩
      · intro _ hV2
        exact absurd hV2 hV
  · constructor
    · rw [hvec, if_pos hY]
      exact ⟨fun _ => Or.inl hY, fun _ => rfl⟩
    · intro hY2 _
      exact absurd hY2 hY

/-- C9: Padded-wave memory safety — when `n_inter_frame_rest > 0` and
`K ≤ N`, the scratch buffers hold `simd_inter_frame_level * N` elements each,
the in-copy of `n_inter_frame_rest * N` input elements fits in `Y_N`, the
kernel's `K * simd_inter_frame_level` outputs fit in `V_KN`, the copy-back of
`n_inter_frame_rest * K` results fits in `V_KN`, and the in-copy reads exactly
up to input index `F * N` while the copy-back writes exactly up to output
index `F * K`. -/
theorem C9_padded_wave_memory_safety {B : Type} (K N F W : Nat) (b0 : B)
    (hr : F % W ≠ 0) (hK : K ≤ N) (hW : 1 ≤ W) :
    (mkDecoder K N F W b0 : Decoder_HIHO B).Y_N_size = W * N ∧
    (mkDecoder K N F W b0 : Decoder_HIHO B).V_KN_size = W * N ∧
    (mkDecoder K N F W b0 : Decoder_HIHO B).n_inter_frame_rest * N
      ≤ (mkDecoder K N F W b0 : Decoder_HIHO B).Y_N_size ∧
    K * W ≤ (mkDecoder K N F W b0 : Decoder_HIHO B).V_KN_size ∧
    (mkDecoder K N F W b0 : Decoder_HIHO B).n_inter_frame_rest * K
      ≤ (mkDecoder K N F W b0 : Decoder_HIHO B).V_KN_size ∧
    F / W * W * N + (mkDecoder K N F W b0 : Decoder_HIHO B).n_inter_frame_rest * N
      = F * N ∧
    F / W * W * K + (mkDecoder K N F W b0 : Decoder_HIHO B).n_inter_frame_rest * K
      = F * K := by
  have hrlt : F % W < W := Nat.mod_lt F (by omega)
  have hsy : (mkDecoder K N F W b0 : Decoder_HIHO B).Y_N_size = W * N := by
    rw [mkDecoder_Y_N_size, if_pos hr]
  have hsv : (mkDecoder K N F W b0 : Decoder_HIHO B).V_KN_size = W * N := by
    rw [mkDecoder_V_KN_size, if_pos hr]
  refine ⟨hsy, hsv, ?_, ?_, ?_, ?_, ?_⟩
  · rw [mkDecoder_rest, hsy]
    exact Nat.mul_le_mul_right N (le_of_lt hrlt)
  · rw [hsv]
    have h1 : K * W ≤ N * W := Nat.mul_le_mul_right W hK
    have e : N * W = W * N := by ring
    omega
  · rw [mkDecoder_rest, hsv]
    exact Nat.mul_le_mul (le_of_lt hrlt) hK
  · rw [mkDecoder_rest]
    have e : F / W * W * N + F % W * N = (F / W * W + F % W) * N := by ring
    rw [e, Nat.div_add_mod']
  · rw [mkDecoder_rest]
    have e : F / W * W * K + F % W * K = (F / W * W + F % W) * K := by ring
    rw [e, Nat.div_add_mod']

/-- The default kernel makes a full wave throw immediately. -/
lemma wavesUpTo_default_err {B : Type} (d : Decoder_HIHO B) (Y : Nat → B)
    (m : Nat) (s : WaveState B) :
    d.wavesUpTo (default_decode_hiho B) Y (m + 1) s
      = Except.error DecoderError.unimplemented_error := by
  induction m with
  | zero => rfl
  | succ m ih =>
    rw [wavesUpTo, ih]

/-- C10: Unoverridden kernel hook raises — when the protected hook
`_decode_hiho` is not overridden (so every kernel invocation throws
`tools::unimplemented_error`), every `decode_hiho` call with `F ≥ 1`, `W ≥ 1`
raises `unimplemented_error` instead of returning an output state. -/
theorem C10_unoverridden_kernel_raises {B : Type} (K N F W : Nat) (b0 : B)
    (Y V : Nat → B) (hF : 1 ≤ F) (hW : 1 ≤ W) :
    (mkDecoder K N F W b0).decode_hiho (default_decode_hiho B) Y V
      = Except.error DecoderError.unimplemented_error := by
  by_cases hm : (mkDecoder K N F W b0 : Decoder_HIHO B).n_dec_waves - 1 = 0
  · have h1 : (mkDecoder K N F W b0).wavesUpTo (default_decode_hiho B) Y
        ((mkDecoder K N F W b0).n_dec_waves - 1)
        { V := V, scratchY := (mkDecoder K N F W b0).Y_N,
          scratchV := (mkDecoder K N F W b0).V_KN,
          scratchY_size := (mkDecoder K N F W b0).Y_N_size,
          scratchV_size := (mkDecoder K N F W b0).V_KN_size, calls := [] }
        = Except.ok
          { V := V, scratchY := (mkDecoder K N F W b0).Y_N,
            scratchV := (mkDecoder K N F W b0).V_KN,
            scratchY_size := (mkDecoder K N F W b0).Y_N_size,
            scratchV_size := (mkDecoder K N F W b0).V_KN_size, calls := [] } := by
      rw [hm]
      simp [wavesUpTo]
    by_cases hrest : (mkDecoder K N F W b0 : Decoder_HIHO B).n_inter_frame_rest = 0
    · rw [decode_hiho_of_rest_eq_zero _ _ _ _ hrest _ h1]
      rfl
    · rw [decode_hiho_of_rest_ne_zero _ _ _ _ hrest _ h1]
      rfl
  · obtain ⟨m, hm'⟩ : ∃ m, (mkDecoder K N F W b0 : Decoder_HIHO B).n_dec_waves - 1
        = m + 1 := ⟨(mkDecoder K N F W b0 : Decoder_HIHO B).n_dec_waves - 1 - 1, by omega⟩
    rw [decode_hiho_eq, hm', wavesUpTo_default_err]

/-! ## The `Task` statistics / clone model

`include/Module/Task.hpp` declares `Task::exec`, `Task::reset` and
`Task::clone` but their bodies (`Task.cpp`/`Task.hxx`) are not among the
sampled sources, so the operations below are modelled from the spec. -/

/-- The statistics and configuration state of a `module::Task`
(include/Module/Task.hpp lines 35-64): debug flags, the call counter, the
duration aggregates, the parallel arrays of named sub-phase timers, and the
task's endpoint bindings (`sockets`), embedded as indices of externally owned
buffers in a `Store`. -/
structure Task where
  name : String
  autoalloc : Bool
  stats : Bool
  fast : Bool
  debug : Bool
  n_calls : Nat
  duration_total : Nat
  duration_min : Nat
  duration_max : Nat
  timers_name : List String
  timers_n_calls : List Nat
  timers_total : List Nat
  timers_min : List Nat
  timers_max : List Nat
  socket_ids : List Nat

/-- The heap holding endpoint buffers; tasks refer to buffers by index, so
aliasing between tasks is expressible. -/
structure Store (B : Type) where
  bufs : List (List B)

/-- Read the buffer bound at index `i`. -/
def Store.readBuf {B : Type} (st : Store B) (i : Nat) : List B :=
  st.bufs.getD i []

/-- Overwrite the buffer bound at index `i`. -/
def Store.writeBuf {B : Type} (st : Store B) (i : Nat) (v : List B) : Store B :=
  ⟨st.bufs.set i v⟩

/-- Modelled from the spec: `Task::exec` (Task.hpp line 113; its body is not
among the sampled sources) runs the codelet, measures the call's `duration`,
increments `n_calls` by one, accumulates `duration_total`, and tracks the
extremes `duration_min` / `duration_max` (initialised from the first call). -/
def Task.exec (t : Task) (duration : Nat) : Task :=
  { t with
    n_calls := t.n_calls + 1
    duration_total := t.duration_total + duration
    duration_min := if t.n_calls = 0 then duration else min t.duration_min duration
    duration_max := if t.n_calls = 0 then duration else max t.duration_max duration }

/-- Modelled from the spec: `Task::reset` (Task.hpp line 78; its body is not
among the sampled sources) zeroes all statistics and timers and does not touch
the endpoint bindings. -/
def Task.reset (t : Task) : Task :=
  { t with
    n_calls := 0
    duration_total := 0
    duration_min := 0
    duration_max := 0
    timers_n_calls := t.timers_n_calls.map (fun _ => 0)
    timers_total := t.timers_total.map (fun _ => 0)
    timers_min := t.timers_min.map (fun _ => 0)
    timers_max := t.timers_max.map (fun _ => 0) }

/-- Modelled from the spec: `Task::clone` (Task.hpp line 119 and
`Router_predicate::clone`/`deep_copy`; bodies not among the sampled sources)
produces a new task with the same structural configuration, fresh zeroed
statistics, and independently allocated endpoint buffers: each of the clone's
sockets is bound to a newly allocated buffer holding a copy of the source
buffer's contents. -/
def Task.clone (t : Task) {B : Type} (st : Store B) : Task × Store B :=
  let n := st.bufs.length
  ({ t with
      n_calls := 0
      duration_total := 0
      duration_min := 0
      duration_max := 0
      timers_n_calls := t.timers_n_calls.map (fun _ => 0)
      timers_total := t.timers_total.map (fun _ => 0)
      timers_min := t.timers_min.map (fun _ => 0)
      timers_max := t.timers_max.map (fun _ => 0)
      socket_ids := (List.range t.socket_ids.length).map (fun k => n + k) },
   ⟨st.bufs ++ t.socket_ids.map (fun i => st.readBuf i)⟩)

/-- Modelled from the spec: executing a task's codelet writes results through
the task's own endpoint bindings — embedded as overwriting each bound buffer
with codelet output. -/
def Task.exec_store {B : Type} (t : Task) (st : Store B) (outs : List B) :
    Store B :=
  t.socket_ids.foldl (fun st' i => st'.writeBuf i outs) st

/-- Writing one buffer leaves every other buffer unchanged. -/
lemma readBuf_writeBuf_ne {B : Type} (st : Store B) (j i : Nat) (v : List B)
    (h : j ≠ i) : (st.writeBuf j v).readBuf i = st.readBuf i := by
  simp only [Store.writeBuf, Store.readBuf, List.getD_eq_getD_get?,
    List.get?_eq_getElem?]
  rw [List.getElem?_set_ne h]

/-- A sequence of writes through indices all different from `i` leaves the
buffer at `i` unchanged. -/
lemma readBuf_foldl_write {B : Type} (ids : List Nat) (outs : List B) :
    ∀ (st : Store B) (i : Nat), (∀ j ∈ ids, j ≠ i) →
      (ids.foldl (fun st' j => st'.writeBuf j outs) st).readBuf i
        = st.readBuf i := by
  induction ids with
  | nil =>
    intro st i _
    rfl
  | cons j ids ih =>
    intro st i hne
    rw [List.foldl_cons]
    rw [ih (st.writeBuf j outs) i (fun k hk => hne k (List.mem_cons_of_mem j hk))]
    exact readBuf_writeBuf_ne st j i outs (hne j (List.mem_cons_self j ids))

/-- The statistics invariant maintained by any sequence of `exec` calls:
the call count grows by the sequence length, a zero call count means a zero
total, and once at least one call has happened the extremes bound the total. -/
lemma execSeq_invariant (ds : List Nat) : ∀ (t : Task),
    (t.n_calls = 0 → t.duration_total = 0) →
    (1 ≤ t.n_calls →
      t.duration_min * t.n_calls ≤ t.duration_total ∧
      t.duration_total ≤ t.duration_max * t.n_calls) →
    ((ds.foldl Task.exec t).n_calls = t.n_calls + ds.length ∧
      ((ds.foldl Task.exec t).n_calls = 0 →
        (ds.foldl Task.exec t).duration_total = 0) ∧
      (1 ≤ (ds.foldl Task.exec t).n_calls →
        (ds.foldl Task.exec t).duration_min * (ds.foldl Task.exec t).n_calls
          ≤ (ds.foldl Task.exec t).duration_total ∧
        (ds.foldl Task.exec t).duration_total
          ≤ (ds.foldl Task.exec t).duration_max * (ds.foldl Task.exec t).n_calls)) := by
  induction ds with
  | nil =>
    intro t h0 hinv
    exact ⟨by simp, h0, hinv⟩
  | cons d ds ih =>
    intro t h0 hinv
    have hstep0 : (Task.exec t d).n_calls = 0 → (Task.exec t d).duration_total = 0 := by
      intro h
      simp [Task.exec] at h
    have hstepinv : 1 ≤ (Task.exec t d).n_calls →
        (Task.exec t d).duration_min * (Task.exec t d).n_calls
          ≤ (Task.exec t d).duration_total ∧
        (Task.exec t d).duration_total
          ≤ (Task.exec t d).duration_max * (Task.exec t d).n_calls := by
      intro _
      by_cases hn : t.n_calls = 0
      · have ht0 := h0 hn
        simp [Task.exec, hn, ht0]
      · have hge : 1 ≤ t.n_calls := by omega
        obtain ⟨h1, h2⟩ := hinv hge
        simp only [Task.exec, if_neg hn]
        constructor
        · have ha : min t.duration_min d * t.n_calls ≤ t.duration_min * t.n_calls :=
            Nat.mul_le_mul_right _ (Nat.min_le_left _ _)
          have hb : min t.duration_min d ≤ d := Nat.min_le_right _ _
          have e : min t.duration_min d * (t.n_calls + 1)
              = min t.duration_min d * t.n_calls + min t.duration_min d := by ring
          omega
        · have ha : t.duration_max * t.n_calls ≤ max t.duration_max d * t.n_calls :=
            Nat.mul_le_mul_right _ (Nat.le_max_left _ _)
          have hb : d ≤ max t.duration_max d := Nat.le_max_right _ _
          have e : max t.duration_max d * (t.n_calls + 1)
              = max t.duration_max d * t.n_calls + max t.duration_max d := by ring
          omega
    obtain ⟨ha, hb, hc⟩ := ih (Task.exec t d) hstep0 hstepinv
    refine ⟨?_, hb, hc⟩
    rw [List.foldl_cons, ha]
    have he : (Task.exec t d).n_calls = t.n_calls + 1 := rfl
    rw [he]
    simp [Nat.add_assoc, Nat.add_comm 1 ds.length]

/-- C6: Statistics monotonicity — every successful `exec` call increments
`n_calls` by exactly one and never decreases `duration_total`; and after any
nonempty sequence of `exec` calls starting from freshly reset statistics,
`duration_min ≤ duration_avg ≤ duration_max` holds, where `duration_avg` is
`duration_total / n_calls`. -/
theorem C6_statistics_monotonicity (t : Task) (d : Nat) (ds : List Nat)
    (hne : ds ≠ []) :
    (t.exec d).n_calls = t.n_calls + 1 ∧
    t.duration_total ≤ (t.exec d).duration_total ∧
    ((ds.foldl Task.exec t.reset).duration_min
        ≤ (ds.foldl Task.exec t.reset).duration_total
            / (ds.foldl Task.exec t.reset).n_calls ∧
      (ds.foldl Task.exec t.reset).duration_total
            / (ds.foldl Task.exec t.reset).n_calls
        ≤ (ds.foldl Task.exec t.reset).duration_max) := by
  refine ⟨rfl, Nat.le_add_right _ _, ?_⟩
  obtain ⟨ha, hb, hc⟩ := execSeq_invariant ds t.reset
    (fun _ => rfl) (fun h => absurd h (by simp [Task.reset]))
  have hn1 : 1 ≤ (ds.foldl Task.exec t.reset).n_calls := by
    have hr : (Task.reset t).n_calls = 0 := rfl
    have hlen : ds.length ≠ 0 := fun h => hne (List.eq_nil_of_length_eq_zero h)
    omega
  obtain ⟨h1, h2⟩ := hc hn1
  constructor
  · rw [Nat.le_div_iff_mul_le (by omega)]
    exact h1
  · have h3 : (ds.foldl Task.exec t.reset).duration_total
          / (ds.foldl Task.exec t.reset).n_calls
        ≤ (ds.foldl Task.exec t.reset).duration_max
          * (ds.foldl Task.exec t.reset).n_calls
          / (ds.foldl Task.exec t.reset).n_calls :=
      Nat.div_le_div_right h2
    rwa [Nat.mul_div_cancel _ (by omega)] at h3

/-- C7: `reset()` postcondition and frame — after `reset()` the call counter
is `0`, every duration aggregate and every named timer aggregate is zero, and
the endpoint bindings (and timer names) are left unchanged. -/
theorem C7_reset_postcondition (t : Task) :
    t.reset.n_calls = 0 ∧ t.reset.duration_total = 0 ∧
    t.reset.duration_min = 0 ∧ t.reset.duration_max = 0 ∧
    (∀ x ∈ t.reset.timers_n_calls, x = 0) ∧
    (∀ x ∈ t.reset.timers_total, x = 0) ∧
    (∀ x ∈ t.reset.timers_min, x = 0) ∧
    (∀ x ∈ t.reset.timers_max, x = 0) ∧
    t.reset.socket_ids = t.socket_ids ∧
    t.reset.timers_name = t.timers_name := by
  refine ⟨rfl, rfl, rfl, rfl, ?_, ?_, ?_, ?_, rfl, rfl⟩ <;>
    simp [Task.reset]

/-- C8: Clone independence — after `(b, st') = a.clone st`, the clone `b` has
fresh zeroed statistics; the cloning itself leaves `a`'s buffer contents
unchanged; `b`'s endpoint bindings are disjoint from `a`'s; overwriting any of
`b`'s buffers never changes what `a` reads through its own bindings; and
executing `b`'s task (writing codelet output through all of `b`'s endpoints)
never changes `a`'s buffer contents either. -/
theorem C8_clone_independence {B : Type} (t : Task) (st : Store B)
    (hwf : ∀ i ∈ t.socket_ids, i < st.bufs.length) :
    ((t.clone st).1.n_calls = 0 ∧ (t.clone st).1.duration_total = 0 ∧
      (t.clone st).1.duration_min = 0 ∧ (t.clone st).1.duration_max = 0) ∧
    (∀ i ∈ t.socket_ids, (t.clone st).2.readBuf i = st.readBuf i) ∧
    (∀ j ∈ (t.clone st).1.socket_ids, ∀ i ∈ t.socket_ids, j ≠ i) ∧
    (∀ j ∈ (t.clone st).1.socket_ids, ∀ v : List B, ∀ i ∈ t.socket_ids,
      (((t.clone st).2.writeBuf j v).readBuf i = st.readBuf i)) ∧
    (∀ outs : List B, ∀ i ∈ t.socket_ids,
      ((t.clone st).1.exec_store (t.clone st).2 outs).readBuf i
        = st.readBuf i) := by
  have hids : (t.clone st).1.socket_ids
      = (List.range t.socket_ids.length).map (fun k => st.bufs.length + k) := rfl
  have hge : ∀ j ∈ (t.clone st).1.socket_ids, st.bufs.length ≤ j := by
    intro j hj
    rw [hids] at hj
    obtain ⟨k, _, hk⟩ := List.mem_map.mp hj
    omega
  have hpres : ∀ i ∈ t.socket_ids, (t.clone st).2.readBuf i = st.readBuf i := by
    intro i hi
    have hlt := hwf i hi
    show (st.bufs ++ t.socket_ids.map (fun j => st.readBuf j)).getD i []
        = st.bufs.getD i []
    exact List.getD_append _ _ _ _ hlt
  have hdisj : ∀ j ∈ (t.clone st).1.socket_ids, ∀ i ∈ t.socket_ids, j ≠ i := by
    intro j hj i hi
    have := hge j hj
    have := hwf i hi
    omega
  refine ⟨⟨rfl, rfl, rfl, rfl⟩, hpres, hdisj, ?_, ?_⟩
  · intro j hj v i hi
    rw [readBuf_writeBuf_ne _ _ _ _ (hdisj j hj i hi)]
    exact hpres i hi
  · intro outs i hi
    show ((t.clone st).1.socket_ids.foldl
        (fun st' j => st'.writeBuf j outs) (t.clone st).2).readBuf i = st.readBuf i
    rw [readBuf_foldl_write _ _ _ _ (fun j hj => hdisj j hj i hi)]
    exact hpres i hi

/-! ## Concrete witnesses -/

/-- A sample task configuration used to witness the `Task` statements. -/
def sampleTask : Task :=
  { name := "decode_hiho"
    autoalloc := true
    stats := false
    fast := false
    debug := false
    n_calls := 4
    duration_total := 100
    duration_min := 10
    duration_max := 40
    timers_name := ["load", "decode", "store"]
    timers_n_calls := [2, 2, 2]
    timers_total := [30, 50, 20]
    timers_min := [5, 20, 8]
    timers_max := [20, 30, 12]
    socket_ids := [0, 1] }

/-- Witness for C1 at `F = 3`, `W = 2`, `N = K = 2`. -/
theorem C1_wave_scheduler_identity_roundtrip_witness :
    (1 ≤ 3 ∧ 1 ≤ 2) ∧
    (∃ s, (mkDecoder 2 2 3 2 (0 : Int)).decode_hiho (pureKernel (fun _ v => v))
        (fun i => (i : Int)) (fun _ => 0) = Except.ok s ∧
      ∀ i, i < 3 * 2 → s.V i = (i : Int)) :=
  ⟨⟨by decide, by decide⟩,
    C1_wave_scheduler_identity_roundtrip 3 2 2 (0 : Int)
      (fun i => (i : Int)) (fun _ => 0) (by decide) (by decide)⟩

/-- Witness for C2 at `F = 1`, `W = 8` (zero full waves, one padded wave of
valid length 1) with `N = 3`, `K = 2`. -/
theorem C2_wave_count_and_shape_witness :
    (1 ≤ 1 ∧ 1 ≤ 8) ∧
    (∃ s, (mkDecoder 2 3 1 8 (0 : Int)).decode_hiho
        (pureKernel (fun _ v => v)) (fun _ => 0) (fun _ => 0) = Except.ok s ∧
      s.calls = (List.range (1 / 8)).map (fun w =>
          WaveCall.full (w * 3 * 8) (w * 2 * 8) (w * 8)) ++
        (if 1 % 8 = 0 then [] else [WaveCall.padded (1 / 8 * 8)]) ∧
      (mkDecoder 2 3 1 8 (0 : Int)).n_inter_frame_rest = 1 % 8 ∧
      (1 < 8 → (mkDecoder 2 3 1 8 (0 : Int)).n_inter_frame_rest = 1 ∧
        1 / 8 = 0)) :=
  ⟨⟨by decide, by decide⟩,
    C2_wave_count_and_shape 1 8 3 2 (0 : Int) (fun _ v => v)
      (fun _ => 0) (fun _ => 0) (by decide) (by decide)⟩

/-- Witness for C3 at `F = 3`, `W = 2`, `N = 2`, `K = 1`. -/
theorem C3_padded_wave_framing_witness :
    (1 ≤ 3 ∧ 1 ≤ 2 ∧ 3 % 2 ≠ 0) ∧
    (∃ s1 s2,
      (mkDecoder 1 2 3 2 (0 : Int)).wavesUpTo (pureKernel (fun _ v => v))
        (fun i => (i : Int)) ((mkDecoder 1 2 3 2 (0 : Int)).n_dec_waves - 1)
        { V := fun _ => 0, scratchY := (mkDecoder 1 2 3 2 (0 : Int)).Y_N,
          scratchV := (mkDecoder 1 2 3 2 (0 : Int)).V_KN,
          scratchY_size := (mkDecoder 1 2 3 2 (0 : Int)).Y_N_size,
          scratchV_size := (mkDecoder 1 2 3 2 (0 : Int)).V_KN_size, calls := [] }
        = Except.ok s1 ∧
      (mkDecoder 1 2 3 2 (0 : Int)).decode_hiho (pureKernel (fun _ v => v))
        (fun i => (i : Int)) (fun _ => 0) = Except.ok s2 ∧
      (∀ j, j < 3 % 2 * 2 → s2.scratchY j = ((3 / 2 * 2 * 2 + j : Nat) : Int)) ∧
      (∀ j, 3 % 2 * 2 ≤ j → s2.scratchY j = s1.scratchY j) ∧
      (∀ i, i < 1 * 2 → s2.scratchV i = s2.scratchY i) ∧
      (∀ i, i < 3 % 2 * 1 → s2.V (3 / 2 * 2 * 1 + i) = s2.scratchV i) ∧
      (∀ i, i < 3 / 2 * 2 * 1 ∨ 3 / 2 * 2 * 1 + 3 % 2 * 1 ≤ i →
        s2.V i = s1.V i)) :=
  ⟨⟨by decide, by decide, by decide⟩,
    C3_padded_wave_framing 3 2 2 1 (0 : Int) (fun _ v => v)
      (fun i => (i : Int)) (fun _ => 0) (by decide) (by decide) (by decide)⟩

/-- Witness for C6 with a sample task, one further call of duration 5, and
the call sequence `[3, 7]` after a reset. -/
theorem C6_statistics_monotonicity_witness :
    (([3, 7] : List Nat) ≠ []) ∧
    ((sampleTask.exec 5).n_calls = sampleTask.n_calls + 1 ∧
    sampleTask.duration_total ≤ (sampleTask.exec 5).duration_total ∧
    ((([3, 7] : List Nat).foldl Task.exec sampleTask.reset).duration_min
        ≤ (([3, 7] : List Nat).foldl Task.exec sampleTask.reset).duration_total
            / (([3, 7] : List Nat).foldl Task.exec sampleTask.reset).n_calls ∧
      (([3, 7] : List Nat).foldl Task.exec sampleTask.reset).duration_total
            / (([3, 7] : List Nat).foldl Task.exec sampleTask.reset).n_calls
        ≤ (([3, 7] : List Nat).foldl Task.exec sampleTask.reset).duration_max)) :=
  ⟨by decide, C6_statistics_monotonicity sampleTask 5 [3, 7] (by decide)⟩

/-- Witness for C8 with a two-socket task over a two-buffer store. -/
theorem C8_clone_independence_witness :
    (∀ i ∈ sampleTask.socket_ids, i < (Store.mk [[1, 2], [3]] : Store Int).bufs.length) ∧
    (((sampleTask.clone (Store.mk [[1, 2], [3]] : Store Int)).1.n_calls = 0 ∧
      (sampleTask.clone (Store.mk [[1, 2], [3]] : Store Int)).1.duration_total = 0 ∧
      (sampleTask.clone (Store.mk [[1, 2], [3]] : Store Int)).1.duration_min = 0 ∧
      (sampleTask.clone (Store.mk [[1, 2], [3]] : Store Int)).1.duration_max = 0) ∧
    (∀ i ∈ sampleTask.socket_ids,
      (sampleTask.clone (Store.mk [[1, 2], [3]] : Store Int)).2.readBuf i
        = (Store.mk [[1, 2], [3]] : Store Int).readBuf i) ∧
    (∀ j ∈ (sampleTask.clone (Store.mk [[1, 2], [3]] : Store Int)).1.socket_ids,
      ∀ i ∈ sampleTask.socket_ids, j ≠ i) ∧
    (∀ j ∈ (sampleTask.clone (Store.mk [[1, 2], [3]] : Store Int)).1.socket_ids,
      ∀ v : List Int, ∀ i ∈ sampleTask.socket_ids,
      (((sampleTask.clone (Store.mk [[1, 2], [3]] : Store Int)).2.writeBuf j v).readBuf i
        = (Store.mk [[1, 2], [3]] : Store Int).readBuf i)) ∧
    (∀ outs : List Int, ∀ i ∈ sampleTask.socket_ids,
      ((sampleTask.clone (Store.mk [[1, 2], [3]] : Store Int)).1.exec_store
          (sampleTask.clone (Store.mk [[1, 2], [3]] : Store Int)).2 outs).readBuf i
        = (Store.mk [[1, 2], [3]] : Store Int).readBuf i)) :=
  ⟨by decide, C8_clone_independence sampleTask (Store.mk [[1, 2], [3]]) (by decide)⟩

/-- Witness for C9 at `K = 1`, `N = 2`, `F = 3`, `W = 2`. -/
theorem C9_padded_wave_memory_safety_witness :
    (3 % 2 ≠ 0 ∧ 1 ≤ 2 ∧ 1 ≤ 2) ∧
    ((mkDecoder 1 2 3 2 (0 : Int)).Y_N_size = 2 * 2 ∧
    (mkDecoder 1 2 3 2 (0 : Int)).V_KN_size = 2 * 2 ∧
    (mkDecoder 1 2 3 2 (0 : Int)).n_inter_frame_rest * 2
      ≤ (mkDecoder 1 2 3 2 (0 : Int)).Y_N_size ∧
    1 * 2 ≤ (mkDecoder 1 2 3 2 (0 : Int)).V_KN_size ∧
    (mkDecoder 1 2 3 2 (0 : Int)).n_inter_frame_rest * 1
      ≤ (mkDecoder 1 2 3 2 (0 : Int)).V_KN_size ∧
    3 / 2 * 2 * 2 + (mkDecoder 1 2 3 2 (0 : Int)).n_inter_frame_rest * 2 = 3 * 2 ∧
    3 / 2 * 2 * 1 + (mkDecoder 1 2 3 2 (0 : Int)).n_inter_frame_rest * 1 = 3 * 1) :=
  ⟨⟨by decide, by decide, by decide⟩,
    C9_padded_wave_memory_safety 1 2 3 2 (0 : Int) (by decide) (by decide) (by decide)⟩

/-- Witness for C10 at `F = 3`, `W = 2` (one full wave, then the error). -/
theorem C10_unoverridden_kernel_raises_witness :
    (1 ≤ 3 ∧ 1 ≤ 2) ∧
    (mkDecoder 1 2 3 2 (0 : Int)).decode_hiho (default_decode_hiho Int)
        (fun _ => 0) (fun _ => 0)
      = Except.error DecoderError.unimplemented_error :=
  ⟨⟨by decide, by decide⟩,
    C10_unoverridden_kernel_raises 1 2 3 2 (0 : Int)
      (fun _ => 0) (fun _ => 0) (by decide) (by decide)⟩

end Aff3ct
